import Mathlib

/-!
# AvailabilityEditor: the edit buffer, the diff planner and the commit executor

A shallow embedding of the handlers of
`src/components/dashboard/AvailabilityEditor.jsx`.

* JavaScript values are `JsVal`; a slot object is a record of the seven keys the
  component reads or writes.
* Objects have identity.  The component shares the slot objects of the
  `availabilities` prop with its local buffer (`useState(availabilities)`), and
  `removeAvailability` writes to such an object in place, so slot objects live in a
  store (`State.heap`) and arrays are lists of references into it.
* A handler reads the values of the render it was created in and writes through the
  state setters.  No handler reads a state variable after writing it, so threading
  one `State` through a handler agrees with the closure semantics.
* The remote services are an arbitrary deterministic responder `Remote σ` over an
  abstract server state; `await` is sequential composition.  Timers (`setTimeout`)
  are outside the model: a state is the state right after the handler finished.
-/

namespace AvailabilityEditor

/-! ## Values and slot objects -/

/-- JavaScript values that occur in a slot object.  `undefined` also stands for an
absent key. -/
inductive JsVal where
  | undefined
  | null
  | bool (b : Bool)
  | num (n : Int)
  | nan
  | str (s : String)
deriving DecidableEq, Repr, Inhabited

/-- JavaScript truthiness (`ToBoolean`). -/
def truthy : JsVal → Bool
  | .undefined => false
  | .null => false
  | .bool b => b
  | .num n => n != 0
  | .nan => false
  | .str s => s != ""

/-- A slot object: the keys of an availability entry. -/
structure Slot where
  id : JsVal := .undefined
  dayOfWeek : JsVal := .undefined
  startTime : JsVal := .undefined
  endTime : JsVal := .undefined
  userId : JsVal := .undefined
  isNew : JsVal := .undefined
  markedForDeletion : JsVal := .undefined
deriving DecidableEq, Repr, Inhabited

/-- The keys of a slot object, the `field` argument of `updateAvailability`. -/
inductive Field where
  | id
  | dayOfWeek
  | startTime
  | endTime
  | userId
  | isNew
  | markedForDeletion
deriving DecidableEq, Repr

/-- Object spread with one computed key: `{ ...a, [field]: v }`. -/
def Slot.setField (a : Slot) (field : Field) (v : JsVal) : Slot :=
  match field with
  | .id => { a with id := v }
  | .dayOfWeek => { a with dayOfWeek := v }
  | .startTime => { a with startTime := v }
  | .endTime => { a with endTime := v }
  | .userId => { a with userId := v }
  | .isNew => { a with isNew := v }
  | .markedForDeletion => { a with markedForDeletion := v }

/-- A reference to a slot object in the store. -/
abbrev Ref := Nat

/-- The object store. -/
abbrev Heap := Ref → Slot

/-- Writing an object at a reference. -/
def Heap.store (h : Heap) (r : Ref) (a : Slot) : Heap :=
  fun x => if x = r then a else h x

/-! ## Component state -/

/-- The props and the `useState` variables of one component instance, with the
object store the arrays point into. -/
structure State where
  heap : Heap
  /-- prop `availabilities` -/
  availabilities : List Ref
  /-- prop `supportAreas` -/
  supportAreas : List String
  /-- whether the owner passed an `onChange` handler (`onChange?.(...)`) -/
  hasOnChange : Bool
  /-- whether the owner passed `onSupportAreasChange` -/
  hasOnSupportAreasChange : Bool
  /-- the `user?.id` of the auth context -/
  userId : JsVal
  localAvailabilities : List Ref
  localSupportAreas : List String
  hasUnsavedChanges : Bool
  newSkill : String
  isLoading : Bool
  isSaving : Bool
  error : String
  success : String

/-- The buffer as a list of slot values. -/
def State.buffer (s : State) : List Slot := s.localAvailabilities.map s.heap

/-- The `availabilities` prop as a list of slot values. -/
def State.baseline (s : State) : List Slot := s.availabilities.map s.heap

/-- A reference above every object reachable from the buffer or from the props: the
address of the next allocated object. -/
def State.fresh (s : State) : Ref :=
  (s.localAvailabilities ++ s.availabilities).foldr (fun r m => max (r + 1) m) 0

/-- First render: `useState(availabilities)`, `useState(supportAreas)`,
`useState(false)`, `useState('')`.  The props are given as values; every baseline
entry is an object of its own, at the reference equal to its position. -/
def mount (availabilities : List Slot) (supportAreas : List String)
    (userId : JsVal) (hasOnChange hasOnSupportAreasChange : Bool) : State :=
  { heap := fun r => availabilities.getD r default
    availabilities := List.range availabilities.length
    supportAreas := supportAreas
    hasOnChange := hasOnChange
    hasOnSupportAreasChange := hasOnSupportAreasChange
    userId := userId
    localAvailabilities := List.range availabilities.length
    localSupportAreas := supportAreas
    hasUnsavedChanges := false
    newSkill := ""
    isLoading := false
    isSaving := false
    error := ""
    success := "" }

/-! ## Diff planner: the three filter predicates of `saveAvailabilityChanges` -/

/-- Predicate of line 90: `a => a.markedForDeletion && a.id`. -/
def isToDelete (a : Slot) : Bool := truthy a.markedForDeletion && truthy a.id

/-- Predicate of line 96: `a => a.isNew && !a.markedForDeletion`. -/
def isToCreate (a : Slot) : Bool := truthy a.isNew && !truthy a.markedForDeletion

/-- Predicate of line 105: `a => a.id && !a.isNew && !a.markedForDeletion`. -/
def isToUpdate (a : Slot) : Bool :=
  truthy a.id && !truthy a.isNew && !truthy a.markedForDeletion

/-- Predicate of line 115: `a => !a.isNew && !a.markedForDeletion`. -/
def isKept (a : Slot) : Bool := !truthy a.isNew && !truthy a.markedForDeletion

/-- The objects of the buffer selected for `deleteAvailability`. -/
def toDelete (s : State) : List Ref :=
  s.localAvailabilities.filter (fun r => isToDelete (s.heap r))

/-- The objects of the buffer selected for `createAvailability`. -/
def toCreate (s : State) : List Ref :=
  s.localAvailabilities.filter (fun r => isToCreate (s.heap r))

/-- The objects of the buffer selected for `updateAvailability`. -/
def toUpdate (s : State) : List Ref :=
  s.localAvailabilities.filter (fun r => isToUpdate (s.heap r))

/-- The impossible state of the data model: `isNew` together with
`markedForDeletion`. -/
def impossible (a : Slot) : Bool := truthy a.isNew && truthy a.markedForDeletion

/-! ## Edit buffer handlers -/

/-- A handler run from a DOM event: the state after it, and the exception it threw
(which the event loop reports; state setters called before the throw still apply). -/
structure Handled where
  state : State
  thrown : Option String

/-- Lines 39-53. -/
def addAvailability (s : State) : State :=
  let newAvailability : Slot :=
    { dayOfWeek := .num 1
      startTime := .str "09:00"
      endTime := .str "10:00"
      userId := s.userId
      isNew := .bool true }
  { s with
    error := ""
    heap := s.heap.store s.fresh newAvailability
    localAvailabilities := s.localAvailabilities ++ [s.fresh]
    hasUnsavedChanges := true }

/-- The array method `xs.filter((_, i) => i !== index)`. -/
def filterIndexNe (xs : List Ref) (index : Nat) : List Ref :=
  (xs.enum.filter (fun p => p.1 != index)).map Prod.snd

/-- The array method `xs.map((a, i) => i === index ? b : a)`. -/
def mapIndexEq (xs : List Ref) (index : Nat) (b : Ref) : List Ref :=
  xs.enum.map (fun p => if p.1 = index then b else p.2)

/-- Lines 55-72.  `localAvailabilities[index]` is `undefined` when the index is out of
bounds, and reading `.id` of it throws a `TypeError` (after `setError('')` ran).
Otherwise `availability` is the object in the buffer itself, and line 61 writes to
it in place. -/
def removeAvailability (s : State) (index : Nat) : Handled :=
  match s.localAvailabilities[index]? with
  | none => { state := { s with error := "" }, thrown := some "TypeError" }
  | some r =>
    let availability := s.heap r
    if truthy availability.id && !truthy availability.isNew then
      { state :=
          { s with
            error := ""
            heap := s.heap.store r { availability with markedForDeletion := .bool true }
            localAvailabilities := s.localAvailabilities.set index r
            hasUnsavedChanges := true }
        thrown := none }
    else
      { state :=
          { s with
            error := ""
            localAvailabilities := filterIndexNe s.localAvailabilities index
            hasUnsavedChanges := true }
        thrown := none }

/-- Lines 74-81.  The spread `{ ...availability, [field]: v }` allocates a new object
for the entry at `index`; every other entry keeps its object.  When `index` is out of
bounds the callback never takes the `i === index` branch, no object is allocated and
the new array has the old entries.  `parseInt` is the built-in of the host. -/
def updateAvailability (parseInt : JsVal → JsVal) (s : State) (index : Nat)
    (field : Field) (value : JsVal) : State :=
  match s.localAvailabilities[index]? with
  | none =>
    { s with
      localAvailabilities := mapIndexEq s.localAvailabilities index s.fresh
      hasUnsavedChanges := true }
  | some r =>
    let v := if field = Field.dayOfWeek then parseInt value else value
    { s with
      heap := s.heap.store s.fresh ((s.heap r).setField field v)
      localAvailabilities := mapIndexEq s.localAvailabilities index s.fresh
      hasUnsavedChanges := true }

/-- Lines 133-138. -/
def discardChanges (s : State) : State :=
  { s with
    localAvailabilities := s.availabilities
    hasUnsavedChanges := false
    error := ""
    success := "" }

/-! ## Skills set editor -/

/-- White space and line terminators, the characters `String.prototype.trim` strips. -/
def isJsWhiteSpace (c : Char) : Bool :=
  let n := c.toNat
  n == 0x09 || n == 0x0A || n == 0x0B || n == 0x0C || n == 0x0D || n == 0x20 ||
  n == 0xA0 || n == 0x1680 || (0x2000 ≤ n && n ≤ 0x200A) || n == 0x2028 ||
  n == 0x2029 || n == 0x202F || n == 0x205F || n == 0x3000 || n == 0xFEFF

/-- The string method `trim`. -/
def jsTrim (t : String) : String :=
  String.mk ((t.data.dropWhile isJsWhiteSpace).reverse.dropWhile isJsWhiteSpace).reverse

/-- The text input of the skill field: `setNewSkill(e.target.value)`. -/
def setNewSkill (s : State) (text : String) : State :=
  { s with newSkill := text }

/-- Lines 140-147. -/
def addSkill (s : State) : State :=
  if jsTrim s.newSkill != "" && !s.localSupportAreas.contains (jsTrim s.newSkill) then
    { s with
      localSupportAreas := s.localSupportAreas ++ [jsTrim s.newSkill]
      newSkill := ""
      hasUnsavedChanges := true }
  else s

/-- Lines 149-153. -/
def removeSkill (s : State) (skillToRemove : String) : State :=
  { s with
    localSupportAreas := s.localSupportAreas.filter (fun skill => skill != skillToRemove)
    hasUnsavedChanges := true }

/-! ## Remote collaborators -/

/-- A request to one of the two remote services. -/
inductive Call where
  | deleteAvailability (id : JsVal)
  | createAvailability (data : Slot)
  | updateAvailability (id : JsVal) (data : Slot)
  | updateSkills (skills : List String)
deriving DecidableEq, Repr

/-- How an awaited request settles: it resolves with a response whose `data` is
`data`, or it rejects with an error whose `message` is `message`. -/
inductive Outcome where
  | ok (data : Slot)
  | error (message : String)
deriving DecidableEq, Repr

/-- The remote services (`availabilityService`, `skillsService`): an arbitrary
responder over a server state of type `σ`. -/
structure Remote (σ : Type) where
  respond : σ → Call → Outcome × σ

/-- What the component does to the outside: a request together with how it settled,
or a notification of the owner. -/
inductive Event where
  | call (c : Call) (o : Outcome)
  | onChange (slots : List Slot)
  | onSupportAreasChange (skills : List String)
deriving DecidableEq, Repr

/-- The requests of a trace, in the order they were issued. -/
def calls : List Event → List Call
  | [] => []
  | .call c _ :: rest => c :: calls rest
  | _ :: rest => calls rest

/-- The `onChange` notifications of a trace. -/
def onChanges : List Event → List (List Slot)
  | [] => []
  | .onChange slots :: rest => slots :: onChanges rest
  | _ :: rest => onChanges rest

/-- The `response.data` of the `createAvailability` requests of a trace that
resolved, in the order they were issued. -/
def createdData : List Event → List Slot
  | [] => []
  | .call (.createAvailability _) (.ok d) :: rest => d :: createdData rest
  | _ :: rest => createdData rest

/-- A sequence of awaited requests: the server state after it, the requests issued,
and either the collected `response.data` or the message of the first rejection. -/
structure Awaited (σ : Type) where
  server : σ
  trace : List Event
  result : Except String (List Slot)

/-- The loop `for (const x of xs) { const response = await request(x);
acc.push(response.data) }`, over the requests it makes: each request is awaited
before the next is issued, and a rejection leaves the loop. -/
def forAwait {σ : Type} (remote : Remote σ) : List Call → σ → Awaited σ
  | [], srv => { server := srv, trace := [], result := .ok [] }
  | c :: rest, srv =>
    match remote.respond srv c with
    | (.error m, srv1) =>
      { server := srv1, trace := [.call c (.error m)], result := .error m }
    | (.ok d, srv1) =>
      let r := forAwait remote rest srv1
      { server := r.server
        trace := .call c (.ok d) :: r.trace
        result := r.result.map (fun acc => d :: acc) }

/-- Sequencing inside a `try` block: the statements after a loop run only when the
loop did not throw. -/
def Awaited.andThen {σ : Type} (a : Awaited σ) (f : List Slot → σ → Awaited σ) :
    Awaited σ :=
  match a.result with
  | .error m => { server := a.server, trace := a.trace, result := .error m }
  | .ok acc =>
    let b := f acc a.server
    { server := b.server, trace := a.trace ++ b.trace, result := b.result }

/-- The result of an asynchronous handler: the state after it, the server state, and
what it did to the outside. -/
structure Commit (σ : Type) where
  state : State
  server : σ
  trace : List Event

/-! ## Commit executor -/

/-- Line 99: `const { isNew, markedForDeletion, ...availabilityData } = availability`. -/
def createData (a : Slot) : Slot :=
  { a with isNew := .undefined, markedForDeletion := .undefined }

/-- Line 108: `const { markedForDeletion, ...availabilityData } = availability`. -/
def updateData (a : Slot) : Slot :=
  { a with markedForDeletion := .undefined }

/-- The requests of the loop of lines 91-93. -/
def deleteCalls (s : State) : List Call :=
  (toDelete s).map (fun r => Call.deleteAvailability (s.heap r).id)

/-- The requests of the loop of lines 98-102. -/
def createCalls (s : State) : List Call :=
  (toCreate s).map (fun r => Call.createAvailability (createData (s.heap r)))

/-- The requests of the loop of lines 107-111. -/
def updateCalls (s : State) : List Call :=
  (toUpdate s).map (fun r => Call.updateAvailability (s.heap r).id (updateData (s.heap r)))

/-- The three loops of the `try` block of `saveAvailabilityChanges` (lines 89-111);
the result is `createdAvailabilities`.  `updatedAvailabilities` is filled by the
third loop and never read. -/
def commitLoops {σ : Type} (remote : Remote σ) (s : State) (srv : σ) : Awaited σ :=
  (forAwait remote (deleteCalls s) srv).andThen fun _ srv1 =>
  (forAwait remote (createCalls s) srv1).andThen fun createdAvailabilities srv2 =>
  (forAwait remote (updateCalls s) srv2).andThen fun _updatedAvailabilities srv3 =>
  { server := srv3, trace := [], result := .ok createdAvailabilities }

/-- Placing the objects of a list of responses in the store, from reference `r` on. -/
def allocAll (h : Heap) (r : Ref) : List Slot → Heap
  | [] => h
  | a :: rest => allocAll (h.store r a) (r + 1) rest

/-- Lines 83-131.  The responses are new objects; they enter the store when
`finalAvailabilities` is built. -/
def saveAvailabilityChanges {σ : Type} (remote : Remote σ) (s : State) (srv : σ) :
    Commit σ :=
  let s1 := { s with isSaving := true, error := "", success := "" }
  let t := commitLoops remote s srv
  match t.result with
  | .ok createdAvailabilities =>
    let heap1 := allocAll s.heap s.fresh createdAvailabilities
    let finalAvailabilities :=
      s.localAvailabilities.filter (fun r => isKept (s.heap r)) ++
        List.range' s.fresh createdAvailabilities.length
    { state :=
        { s1 with
          heap := heap1
          localAvailabilities := finalAvailabilities
          hasUnsavedChanges := false
          success := "Availability changes saved successfully!"
          isSaving := false }
      server := t.server
      trace := t.trace ++
        (if s.hasOnChange then [Event.onChange (finalAvailabilities.map heap1)] else []) }
  | .error message =>
    { state := { s1 with error := message, isSaving := false }
      server := t.server
      trace := t.trace }

/-- Lines 155-173. -/
def saveSkillsChanges {σ : Type} (remote : Remote σ) (s : State) (srv : σ) : Commit σ :=
  let s1 := { s with isSaving := true, error := "" }
  match remote.respond srv (.updateSkills s.localSupportAreas) with
  | (.ok d, srv1) =>
    { state := { s1 with success := "Skills saved successfully!", isSaving := false }
      server := srv1
      trace := Event.call (.updateSkills s.localSupportAreas) (.ok d) ::
        (if s.hasOnSupportAreasChange then [Event.onSupportAreasChange s.localSupportAreas]
         else []) }
  | (.error message, srv1) =>
    { state := { s1 with error := message, isSaving := false }
      server := srv1
      trace := [Event.call (.updateSkills s.localSupportAreas) (.error message)] }

/-- Lines 175-199.  Both awaited handlers catch every rejection inside their own
`try` and resolve normally, so the `await`s of lines 183 and 187 never throw and the
statements of lines 189-191 always run; the `catch` of lines 192-195 is never
entered. -/
def saveAllChanges {σ : Type} (remote : Remote σ) (s : State) (srv : σ) : Commit σ :=
  let s1 := { s with isSaving := true, error := "", success := "" }
  let a : Commit σ :=
    if s.hasUnsavedChanges then saveAvailabilityChanges remote s1 srv
    else { state := s1, server := srv, trace := [] }
  let k := saveSkillsChanges remote a.state a.server
  { state :=
      { k.state with
        hasUnsavedChanges := false
        success := "All changes saved successfully!"
        isSaving := false }
    server := k.server
    trace := a.trace ++ k.trace }

/-! ## Auxiliary definitions for the statements -/

/-- The trace of a run of requests that all resolved: request `i` resolved with the
`i`-th element of `acc` as `response.data`. -/
def okTrace (cs : List Call) (acc : List Slot) : List Event :=
  List.zipWith (fun c d => Event.call c (Outcome.ok d)) cs acc

/-- The request is a `deleteAvailability`. -/
def Call.isDelete : Call → Bool
  | .deleteAvailability _ => true
  | _ => false

/-- The request is a `createAvailability`. -/
def Call.isCreate : Call → Bool
  | .createAvailability _ => true
  | _ => false

/-- The request is an `updateAvailability`. -/
def Call.isUpdate : Call → Bool
  | .updateAvailability _ _ => true
  | _ => false

/-! ## Sample inputs -/

/-- A persisted slot: Monday 09:00-10:00 with `id` 1. -/
def persistedSlot : Slot :=
  { id := .num 1, dayOfWeek := .num 1, startTime := .str "09:00", endTime := .str "10:00" }

/-- The component mounted on the baseline `[persistedSlot]`. -/
def mountedOne : State := mount [persistedSlot] ["React"] (.num 7) true true

/-- A buffer whose only entry has no `id` and no tag. -/
def untaggedNoId : State :=
  mount [{ dayOfWeek := .num 1, startTime := .str "09:00", endTime := .str "10:00" }]
    [] .undefined true true

/-- A server whose state is the next free `id`: creation returns the payload with
that `id`, an update returns its payload, every request resolves. -/
def idServer : Remote Nat where
  respond := fun n c =>
    match c with
    | .createAvailability d => (.ok { d with id := .num n }, n + 1)
    | .updateAvailability _ d => (.ok d, n)
    | _ => (.ok default, n)

/-- A server that rejects every `deleteAvailability` with the message
"Network Error" and resolves every other request. -/
def deleteRejecting : Remote Unit where
  respond := fun u c =>
    match c with
    | .deleteAvailability _ => (.error "Network Error", u)
    | .createAvailability d => (.ok d, u)
    | .updateAvailability _ d => (.ok d, u)
    | .updateSkills _ => (.ok default, u)

/-- The event is a request that was rejected. -/
def Event.isRejected : Event → Bool
  | .call _ (.error _) => true
  | _ => false

/-- The buffer of `mountedOne` after the user removed its only row: the persisted
slot is marked for deletion and `hasUnsavedChanges` is set. -/
def removedOne : State := (removeAvailability mountedOne 0).state

/-- The sequence of requests as the claim on sequencing words it: the update request
carries the entry itself. -/
def statedCalls (s : State) : List Call :=
  (toDelete s).map (fun r => Call.deleteAvailability (s.heap r).id) ++
  (toCreate s).map (fun r => Call.createAvailability (createData (s.heap r))) ++
  (toUpdate s).map (fun r => Call.updateAvailability (s.heap r).id (s.heap r))

/-- A buffer whose only entry is persisted and carries the key `markedForDeletion`
with the value `false`. -/
def falseTagged : State :=
  mount [{ persistedSlot with markedForDeletion := .bool false }] [] (.num 7) true true

/-- The scenario of the specification: on the baseline `[persistedSlot]` the user adds
a slot and removes the baseline slot. -/
def addedAndRemoved : State := (removeAvailability (addAvailability mountedOne) 0).state

/-- A server that answers an update with its own representation of the slot (times
with seconds) and otherwise behaves as `idServer`. -/
def normalizing : Remote Nat where
  respond := fun n c =>
    match c with
    | .createAvailability d => (.ok { d with id := .num n }, n + 1)
    | .updateAvailability _ d =>
      (.ok { d with startTime := .str "09:00:00", endTime := .str "10:00:00" }, n)
    | _ => (.ok default, n)

/-- The invariant of the data model: no buffer entry has both `isNew` and
`markedForDeletion` set. -/
def NoImpossible (s : State) : Prop :=
  ∀ r ∈ s.localAvailabilities, impossible (s.heap r) = false

/-! ## The dirty flag and the displayed rows -/

/-- The entry carries a pending tag: `isNew` or `markedForDeletion`. -/
def carriesTag (a : Slot) : Bool := truthy a.isNew || truthy a.markedForDeletion

/-- An edit of the user: one of the handlers of lines 39-81 and 133-153.  Adding a
skill is typing `text` into the input and pressing Add. -/
inductive Action where
  | addAvailability
  | removeAvailability (index : Nat)
  | updateAvailability (index : Nat) (field : Field) (value : JsVal)
  | addSkill (text : String)
  | removeSkill (skillToRemove : String)
  | discardChanges
deriving DecidableEq, Repr

/-- The state after one edit. -/
def perform (parseInt : JsVal → JsVal) (s : State) : Action → State
  | .addAvailability => addAvailability s
  | .removeAvailability index => (removeAvailability s index).state
  | .updateAvailability index field value => updateAvailability parseInt s index field value
  | .addSkill text => addSkill (setNewSkill s text)
  | .removeSkill skillToRemove => removeSkill s skillToRemove
  | .discardChanges => discardChanges s

/-- The state after a sequence of edits. -/
def performAll (parseInt : JsVal → JsVal) (s : State) : List Action → State
  | [] => s
  | a :: rest => performAll parseInt (perform parseInt s a) rest

/-- The edit is `discardChanges`. -/
def Action.isDiscard : Action → Bool
  | .discardChanges => true
  | _ => false

/-- Line 202: `localAvailabilities.filter(a => !a.markedForDeletion)`. -/
def displayAvailabilities (s : State) : List Ref :=
  s.localAvailabilities.filter (fun r => !truthy (s.heap r).markedForDeletion)

/-- Lines 295 and 385: the Remove Slot button of the row at position `index` of
`displayAvailabilities.map((availability, index) => ...)`. -/
def rowRemove (s : State) (index : Nat) : Handled :=
  removeAvailability s index

/-- Lines 295-378: an input of the row at position `index` of
`displayAvailabilities.map((availability, index) => ...)`. -/
def rowUpdate (parseInt : JsVal → JsVal) (s : State) (index : Nat) (field : Field)
    (value : JsVal) : State :=
  updateAvailability parseInt s index field value

/-- A second persisted slot: Tuesday 14:00-15:00 with `id` 2. -/
def secondSlot : Slot :=
  { id := .num 2, dayOfWeek := .num 2, startTime := .str "14:00", endTime := .str "15:00" }

/-- The component mounted on the baseline `[persistedSlot, secondSlot]`, after the
user removed the first row. -/
def firstRowRemoved : State :=
  (removeAvailability (mount [persistedSlot, secondSlot] [] (.num 7) true true) 0).state

/-- The buffer of `firstRowRemoved` after the user added a slot: a persisted slot
marked for deletion, the untouched `secondSlot`, and a new slot. -/
def keptAndAdded : State := addAvailability firstRowRemoved

end AvailabilityEditor

namespace AvailabilityEditor

/-! # Theorems -/

/-! ## Traces and awaited loops -/

theorem calls_append (a b : List Event) : calls (a ++ b) = calls a ++ calls b := by
  induction a with
  | nil => rfl
  | cons e rest ih => cases e <;> simp [calls, ih]

theorem onChanges_append (a b : List Event) :
    onChanges (a ++ b) = onChanges a ++ onChanges b := by
  induction a with
  | nil => rfl
  | cons e rest ih => cases e <;> simp [onChanges, ih]

theorem createdData_append (a b : List Event) :
    createdData (a ++ b) = createdData a ++ createdData b := by
  induction a with
  | nil => rfl
  | cons e rest ih =>
    cases e with
    | call c o => cases c <;> cases o <;> simp [createdData, ih]
    | onChange _ => simp [createdData, ih]
    | onSupportAreasChange _ => simp [createdData, ih]

theorem okTrace_nil_left (acc : List Slot) : okTrace [] acc = [] := by
  simp [okTrace]

theorem okTrace_cons (c : Call) (cs : List Call) (d : Slot) (acc : List Slot) :
    okTrace (c :: cs) (d :: acc) = Event.call c (.ok d) :: okTrace cs acc := by
  simp [okTrace]

theorem okTrace_append (a b : List Call) (x y : List Slot) (h : x.length = a.length) :
    okTrace (a ++ b) (x ++ y) = okTrace a x ++ okTrace b y := by
  unfold okTrace
  exact List.zipWith_append _ a b x y h.symm

theorem mem_okTrace {e : Event} {cs : List Call} {acc : List Slot}
    (h : e ∈ okTrace cs acc) : ∃ c d, e = Event.call c (.ok d) := by
  induction cs generalizing acc with
  | nil => simp [okTrace] at h
  | cons c rest ih =>
    cases acc with
    | nil => simp [okTrace] at h
    | cons d acc1 =>
      rw [okTrace_cons] at h
      rcases List.mem_cons.1 h with h1 | h1
      · exact ⟨c, d, h1⟩
      · exact ih h1

theorem calls_okTrace (cs : List Call) :
    ∀ acc : List Slot, acc.length = cs.length → calls (okTrace cs acc) = cs := by
  induction cs with
  | nil => intro acc _; simp [okTrace, calls]
  | cons c rest ih =>
    intro acc h
    cases acc with
    | nil => simp at h
    | cons d acc1 =>
      rw [okTrace_cons]
      simp only [calls]
      rw [ih acc1 (by simpa using h)]

theorem onChanges_okTrace (cs : List Call) :
    ∀ acc : List Slot, onChanges (okTrace cs acc) = [] := by
  induction cs with
  | nil => intro acc; simp [okTrace, onChanges]
  | cons c rest ih =>
    intro acc
    cases acc with
    | nil => simp [okTrace, onChanges]
    | cons d acc1 => rw [okTrace_cons]; simp only [onChanges]; exact ih acc1

theorem createdData_okTrace_create (cs : List Call) (hc : ∀ c ∈ cs, c.isCreate = true) :
    ∀ acc : List Slot, acc.length = cs.length → createdData (okTrace cs acc) = acc := by
  induction cs with
  | nil => intro acc h; cases acc with
    | nil => simp [okTrace, createdData]
    | cons _ _ => simp at h
  | cons c rest ih =>
    intro acc h
    cases acc with
    | nil => simp at h
    | cons d acc1 =>
      rw [okTrace_cons]
      have h1 := hc c (List.mem_cons_self _ _)
      cases c <;> simp [Call.isCreate] at h1
      simp only [createdData]
      rw [ih (fun c hc1 => hc c (List.mem_cons_of_mem _ hc1)) acc1 (by simpa using h)]

theorem createdData_okTrace_other (cs : List Call) (hc : ∀ c ∈ cs, c.isCreate = false) :
    ∀ acc : List Slot, createdData (okTrace cs acc) = [] := by
  induction cs with
  | nil => intro acc; simp [okTrace, createdData]
  | cons c rest ih =>
    intro acc
    cases acc with
    | nil => simp [okTrace, createdData]
    | cons d acc1 =>
      rw [okTrace_cons]
      have h1 := hc c (List.mem_cons_self _ _)
      cases c <;> simp [Call.isCreate] at h1 <;> simp only [createdData] <;>
        exact ih (fun c hc1 => hc c (List.mem_cons_of_mem _ hc1)) acc1

theorem forAwait_ok {σ : Type} (remote : Remote σ) (cs : List Call) :
    ∀ (srv : σ) (acc : List Slot), (forAwait remote cs srv).result = .ok acc →
      (forAwait remote cs srv).trace = okTrace cs acc ∧ acc.length = cs.length := by
  induction cs with
  | nil =>
    intro srv acc h
    simp only [forAwait] at h
    cases h
    simp [forAwait, okTrace]
  | cons c rest ih =>
    intro srv acc h
    unfold forAwait at h ⊢
    rcases hr : remote.respond srv c with ⟨o, srv1⟩
    rw [hr] at h
    cases o with
    | error m => simp at h
    | ok d =>
      simp only at h ⊢
      cases hres : (forAwait remote rest srv1).result with
      | error m => rw [hres] at h; simp [Except.map] at h
      | ok acc1 =>
        rw [hres] at h
        simp only [Except.map, Except.ok.injEq] at h
        subst h
        obtain ⟨h1, h2⟩ := ih srv1 acc1 hres
        simp [h1, h2, okTrace]

theorem forAwait_error {σ : Type} (remote : Remote σ) (cs : List Call) :
    ∀ (srv : σ) (m : String), (forAwait remote cs srv).result = .error m →
      ∃ pre c post acc, cs = pre ++ c :: post ∧ acc.length = pre.length ∧
        (forAwait remote cs srv).trace = okTrace pre acc ++ [Event.call c (.error m)] := by
  induction cs with
  | nil =>
    intro srv m h
    simp [forAwait] at h
  | cons c rest ih =>
    intro srv m h
    unfold forAwait at h ⊢
    rcases hr : remote.respond srv c with ⟨o, srv1⟩
    rw [hr] at h
    cases o with
    | error m1 =>
      simp only [Except.error.injEq] at h
      subst h
      exact ⟨[], c, rest, [], by simp, rfl, by simp [okTrace]⟩
    | ok d =>
      simp only at h ⊢
      cases hres : (forAwait remote rest srv1).result with
      | ok acc1 => rw [hres] at h; simp [Except.map] at h
      | error m1 =>
        rw [hres] at h
        simp only [Except.map, Except.error.injEq] at h
        subst h
        obtain ⟨pre, c1, post, acc, h1, h2, h3⟩ := ih srv1 m1 hres
        refine ⟨c :: pre, c1, post, d :: acc, by simp [h1], by simp [h2], ?_⟩
        rw [h3, okTrace_cons]
        rfl


theorem commitLoops_ok {σ : Type} (remote : Remote σ) (s : State) (srv : σ)
    (created : List Slot) (h : (commitLoops remote s srv).result = .ok created) :
    ∃ dels upds,
      (commitLoops remote s srv).trace =
        okTrace (deleteCalls s) dels ++ okTrace (createCalls s) created ++
          okTrace (updateCalls s) upds ∧
      dels.length = (deleteCalls s).length ∧
      created.length = (createCalls s).length ∧
      upds.length = (updateCalls s).length := by
  unfold commitLoops at h ⊢
  cases hd : (forAwait remote (deleteCalls s) srv).result with
  | error m => simp [Awaited.andThen, hd] at h
  | ok dels =>
    obtain ⟨td, ld⟩ := forAwait_ok remote _ srv dels hd
    cases hc : (forAwait remote (createCalls s)
        (forAwait remote (deleteCalls s) srv).server).result with
    | error m => simp [Awaited.andThen, hd, hc] at h
    | ok cr =>
      obtain ⟨tc, lc⟩ := forAwait_ok remote _ _ cr hc
      cases hu : (forAwait remote (updateCalls s)
          (forAwait remote (createCalls s)
            (forAwait remote (deleteCalls s) srv).server).server).result with
      | error m => simp [Awaited.andThen, hd, hc, hu] at h
      | ok upds =>
        obtain ⟨tu, lu⟩ := forAwait_ok remote _ _ upds hu
        simp only [Awaited.andThen, hd, hc, hu, Except.ok.injEq] at h
        subst h
        refine ⟨dels, upds, ?_, ld, lc, lu⟩
        simp only [Awaited.andThen, hd, hc, hu, td, tc, tu, List.append_nil,
          List.append_assoc]

theorem commitLoops_error {σ : Type} (remote : Remote σ) (s : State) (srv : σ)
    (m : String) (h : (commitLoops remote s srv).result = .error m) :
    ∃ pre c rest acc,
      deleteCalls s ++ createCalls s ++ updateCalls s = pre ++ c :: rest ∧
      acc.length = pre.length ∧
      (commitLoops remote s srv).trace = okTrace pre acc ++ [Event.call c (.error m)] ∧
      (c.isDelete = true → ∀ c1 ∈ pre, c1.isDelete = true) := by
  have hD : ∀ c ∈ deleteCalls s, c.isDelete = true := by
    intro c hc
    simp only [deleteCalls, List.mem_map] at hc
    obtain ⟨r, _, rfl⟩ := hc
    rfl
  have hC : ∀ c ∈ createCalls s, c.isDelete = false := by
    intro c hc
    simp only [createCalls, List.mem_map] at hc
    obtain ⟨r, _, rfl⟩ := hc
    rfl
  have hU : ∀ c ∈ updateCalls s, c.isDelete = false := by
    intro c hc
    simp only [updateCalls, List.mem_map] at hc
    obtain ⟨r, _, rfl⟩ := hc
    rfl
  unfold commitLoops at h ⊢
  cases hd : (forAwait remote (deleteCalls s) srv).result with
  | error m1 =>
    simp only [Awaited.andThen, hd, Except.error.injEq] at h
    subst h
    obtain ⟨pre, c, post, acc, e1, e2, e3⟩ := forAwait_error remote _ srv m1 hd
    refine ⟨pre, c, post ++ (createCalls s ++ updateCalls s), acc, ?_, e2, ?_, ?_⟩
    · rw [e1]; simp
    · simp only [Awaited.andThen, hd, e3]
    · intro _ c1 hc1
      exact hD c1 (by rw [e1]; exact List.mem_append_left _ hc1)
  | ok dels =>
    obtain ⟨td, ld⟩ := forAwait_ok remote _ srv dels hd
    cases hc : (forAwait remote (createCalls s)
        (forAwait remote (deleteCalls s) srv).server).result with
    | error m1 =>
      simp only [Awaited.andThen, hd, hc, Except.error.injEq] at h
      subst h
      obtain ⟨pre, c, post, acc, e1, e2, e3⟩ := forAwait_error remote _ _ m1 hc
      refine ⟨deleteCalls s ++ pre, c, post ++ updateCalls s, dels ++ acc, ?_, ?_, ?_, ?_⟩
      · rw [e1]; simp
      · simp [ld, e2]
      · simp only [Awaited.andThen, hd, hc, td, e3]
        rw [okTrace_append _ _ _ _ ld, List.append_assoc]
      · intro hdel
        have : c ∈ createCalls s := by rw [e1]; simp
        rw [hC c this] at hdel
        exact Bool.noConfusion hdel
    | ok cr =>
      obtain ⟨tc, lc⟩ := forAwait_ok remote _ _ cr hc
      cases hu : (forAwait remote (updateCalls s)
          (forAwait remote (createCalls s)
            (forAwait remote (deleteCalls s) srv).server).server).result with
      | ok upds => simp [Awaited.andThen, hd, hc, hu] at h
      | error m1 =>
        simp only [Awaited.andThen, hd, hc, hu, Except.error.injEq] at h
        subst h
        obtain ⟨pre, c, post, acc, e1, e2, e3⟩ := forAwait_error remote _ _ m1 hu
        refine ⟨deleteCalls s ++ createCalls s ++ pre, c, post, dels ++ cr ++ acc,
          ?_, ?_, ?_, ?_⟩
        · rw [e1]; simp
        · simp [ld, lc, e2]
        · simp only [Awaited.andThen, hd, hc, hu, td, tc, e3]
          rw [okTrace_append _ _ _ _ (by simp [ld, lc]), okTrace_append _ _ _ _ ld]
          simp only [List.append_assoc]
        · intro hdel
          have : c ∈ updateCalls s := by rw [e1]; simp
          rw [hU c this] at hdel
          exact Bool.noConfusion hdel

/-! ## The diff planner (C1) -/

/-- C1, as stated, fails: the buffer `untaggedNoId` has an entry (its object `0`)
that is not in the impossible state and belongs to none of `toDelete`, `toCreate`,
`toUpdate`. -/
theorem planner_cover_fails :
    0 ∈ untaggedNoId.localAvailabilities ∧
    impossible (untaggedNoId.heap 0) = false ∧
    0 ∉ toDelete untaggedNoId ∧ 0 ∉ toCreate untaggedNoId ∧ 0 ∉ toUpdate untaggedNoId := by
  decide

/-- C1, amended: for every buffer the three sets of `saveAvailabilityChanges` are
pairwise disjoint; every buffer entry that is not in the impossible state and that
has a (truthy) `id` or is `isNew` belongs to one of the three; an entry with neither
an `id` nor `isNew` belongs to none. -/
theorem planner_disjoint_cover (s : State) :
    (List.Disjoint (toDelete s) (toCreate s) ∧
      List.Disjoint (toDelete s) (toUpdate s) ∧
      List.Disjoint (toCreate s) (toUpdate s)) ∧
    (∀ r ∈ s.localAvailabilities, impossible (s.heap r) = false →
      (truthy (s.heap r).id = true ∨ truthy (s.heap r).isNew = true) →
      r ∈ toDelete s ∨ r ∈ toCreate s ∨ r ∈ toUpdate s) ∧
    (∀ r ∈ s.localAvailabilities,
      truthy (s.heap r).id = false → truthy (s.heap r).isNew = false →
      r ∉ toDelete s ∧ r ∉ toCreate s ∧ r ∉ toUpdate s) := by
  refine ⟨⟨?_, ?_, ?_⟩, ?_, ?_⟩
  · intro r hd hc
    simp only [toDelete, toCreate, List.mem_filter, isToDelete, isToCreate,
      Bool.and_eq_true, Bool.not_eq_true'] at hd hc
    rw [hd.2.1] at hc
    exact Bool.noConfusion hc.2.2
  · intro r hd hu
    simp only [toDelete, toUpdate, List.mem_filter, isToDelete, isToUpdate,
      Bool.and_eq_true, Bool.not_eq_true'] at hd hu
    rw [hd.2.1] at hu
    exact Bool.noConfusion hu.2.2
  · intro r hc hu
    simp only [toCreate, toUpdate, List.mem_filter, isToCreate, isToUpdate,
      Bool.and_eq_true, Bool.not_eq_true'] at hc hu
    rw [hc.2.1] at hu
    exact Bool.noConfusion hu.2.1.2
  · intro r hr himp hid
    simp only [toDelete, toCreate, toUpdate, List.mem_filter, isToDelete, isToCreate,
      isToUpdate, hr, true_and]
    simp only [impossible] at himp
    cases h1 : truthy (s.heap r).id <;> cases h2 : truthy (s.heap r).isNew <;>
      cases h3 : truthy (s.heap r).markedForDeletion <;> simp_all
  · intro r hr hid hnew
    simp [toDelete, toCreate, toUpdate, List.mem_filter, isToDelete, isToCreate,
      isToUpdate, hid, hnew]

/-! ## Discarding (C2) -/

/-- C2 (code defect): on the baseline `[persistedSlot]`, removing row 0 and then
discarding leaves a buffer whose entry carries `markedForDeletion`, which the baseline
did not carry before the edit: line 61 wrote to the object the `availabilities` prop
holds, so the baseline that `discardChanges` restores has itself been changed. -/
theorem discard_after_remove_keeps_mark :
    mountedOne.baseline = [persistedSlot] ∧
    (discardChanges (removeAvailability mountedOne 0).state).buffer =
      [{ persistedSlot with markedForDeletion := .bool true }] ∧
    (discardChanges (removeAvailability mountedOne 0).state).buffer ≠ mountedOne.baseline ∧
    (discardChanges (removeAvailability mountedOne 0).state).hasUnsavedChanges = false := by
  decide

/-! ## Failure of the availability commit (C3) -/

/-- C3: if a request of `saveAvailabilityChanges` is rejected with message `m`, then
that request is the last event of the commit, every request before it resolved, and
the requests issued are an initial segment of deletes, creates, updates (so after a
rejected delete no create or update is issued); the buffer and its objects are as
before the commit, `onChange` is not invoked, the error indicator is `m`, and
`hasUnsavedChanges` keeps its value (true for a dirty buffer). -/
theorem save_failure_aborts {σ : Type} (remote : Remote σ) (s : State) (srv : σ)
    (c : Call) (m : String)
    (h : Event.call c (.error m) ∈ (saveAvailabilityChanges remote s srv).trace) :
    (∃ pre rest,
      (saveAvailabilityChanges remote s srv).trace = pre ++ [Event.call c (.error m)] ∧
      (∀ e ∈ pre, ∃ c1 d, e = Event.call c1 (.ok d)) ∧
      deleteCalls s ++ createCalls s ++ updateCalls s = calls pre ++ c :: rest) ∧
    (c.isDelete = true →
      ∀ c1 ∈ calls (saveAvailabilityChanges remote s srv).trace, c1.isDelete = true) ∧
    (saveAvailabilityChanges remote s srv).state.localAvailabilities =
      s.localAvailabilities ∧
    (saveAvailabilityChanges remote s srv).state.heap = s.heap ∧
    (saveAvailabilityChanges remote s srv).state.buffer = s.buffer ∧
    onChanges (saveAvailabilityChanges remote s srv).trace = [] ∧
    (saveAvailabilityChanges remote s srv).state.error = m ∧
    (saveAvailabilityChanges remote s srv).state.hasUnsavedChanges =
      s.hasUnsavedChanges := by
  unfold saveAvailabilityChanges at h ⊢
  cases hr : (commitLoops remote s srv).result with
  | ok created =>
    exfalso
    obtain ⟨dels, upds, ht, _, _, _⟩ := commitLoops_ok remote s srv created hr
    simp only [hr, ht] at h
    rcases List.mem_append.1 h with h1 | h1
    · rcases List.mem_append.1 h1 with h2 | h2
      · rcases List.mem_append.1 h2 with h3 | h3
        · obtain ⟨_, _, h4⟩ := mem_okTrace h3
          simp at h4
        · obtain ⟨_, _, h4⟩ := mem_okTrace h3
          simp at h4
      · obtain ⟨_, _, h4⟩ := mem_okTrace h2
        simp at h4
    · split at h1 <;> simp at h1
  | error m1 =>
    obtain ⟨pre, c0, rest, acc, hplan, hlen, ht, hdel⟩ := commitLoops_error remote s srv m1 hr
    simp only [hr, ht] at h ⊢
    have hcm : c = c0 ∧ m = m1 := by
      rcases List.mem_append.1 h with h1 | h1
      · obtain ⟨_, _, h4⟩ := mem_okTrace h1
        simp at h4
      · simpa using h1
    obtain ⟨rfl, rfl⟩ := hcm
    refine ⟨⟨okTrace pre acc, rest, rfl, fun e he => mem_okTrace he, ?_⟩, ?_, by trivial,
      by trivial, by trivial, ?_, by trivial, by trivial⟩
    · rw [calls_okTrace pre acc hlen, hplan]
    · intro hc c1 hc1
      rw [calls_append, calls_okTrace pre acc hlen] at hc1
      rcases List.mem_append.1 hc1 with h1 | h1
      · exact hdel hc c1 h1
      · simp only [calls, List.mem_singleton] at h1
        rw [h1]; exact hc
    · rw [onChanges_append, onChanges_okTrace]
      rfl

/-- Witness of `save_failure_aborts`: the delete of the marked slot is rejected. -/
theorem save_failure_aborts_witness :
    (saveAvailabilityChanges deleteRejecting removedOne ()).state.error = "Network Error" ∧
    (saveAvailabilityChanges deleteRejecting removedOne ()).state.hasUnsavedChanges = true :=
  ⟨(save_failure_aborts deleteRejecting removedOne () (.deleteAvailability (.num 1))
      "Network Error" (by decide)).2.2.2.2.2.2.1,
    (save_failure_aborts deleteRejecting removedOne () (.deleteAvailability (.num 1))
      "Network Error" (by decide)).2.2.2.2.2.2.2⟩

/-! ## The combined commit (C4) -/

/-- C4 (code defect): with a dirty buffer whose delete request is rejected,
`saveAllChanges` still issues `updateSkills` after the rejected delete, ends with an
empty error indicator instead of the generic message, reports success and clears
`hasUnsavedChanges`, while the buffer keeps its pending tag. -/
theorem saveAll_swallows_failure :
    removedOne.hasUnsavedChanges = true ∧
    (saveAllChanges deleteRejecting removedOne ()).trace =
      [Event.call (.deleteAvailability (.num 1)) (.error "Network Error"),
        Event.call (.updateSkills ["React"]) (.ok default),
        Event.onSupportAreasChange ["React"]] ∧
    (saveAllChanges deleteRejecting removedOne ()).state.error = "" ∧
    (saveAllChanges deleteRejecting removedOne ()).state.error ≠
      "Failed to save some changes. Please try again." ∧
    (saveAllChanges deleteRejecting removedOne ()).state.success =
      "All changes saved successfully!" ∧
    (saveAllChanges deleteRejecting removedOne ()).state.hasUnsavedChanges = false ∧
    (saveAllChanges deleteRejecting removedOne ()).state.buffer =
      [{ persistedSlot with markedForDeletion := .bool true }] := by
  decide

/-! ## Sequencing of the availability commit (C5) -/

theorem rejected_of_commitLoops_error {σ : Type} (remote : Remote σ) (s : State) (srv : σ)
    (m : String) (h : (commitLoops remote s srv).result = .error m) :
    ∃ e ∈ (commitLoops remote s srv).trace, e.isRejected = true := by
  obtain ⟨pre, c0, rest, acc, _, _, ht, _⟩ := commitLoops_error remote s srv m h
  exact ⟨Event.call c0 (.error m), by rw [ht]; simp, rfl⟩

/-- C5, as stated, fails: on `falseTagged` every request resolves, and the update
request carries the entry without its `markedForDeletion` key, not the entry. -/
theorem stated_calls_differ :
    (∀ e ∈ (saveAvailabilityChanges idServer falseTagged 2).trace, e.isRejected = false) ∧
    calls (saveAvailabilityChanges idServer falseTagged 2).trace =
      [Call.updateAvailability (.num 1) persistedSlot] ∧
    statedCalls falseTagged =
      [Call.updateAvailability (.num 1)
        { persistedSlot with markedForDeletion := .bool false }] ∧
    calls (saveAvailabilityChanges idServer falseTagged 2).trace ≠ statedCalls falseTagged := by
  decide

/-- C5, amended: when every request of `saveAvailabilityChanges` resolves, the requests
issued are exactly `deleteAvailability(id)` for each `toDelete` entry in buffer order,
then `createAvailability` of each `toCreate` entry without its `isNew` and
`markedForDeletion` keys, then `updateAvailability(id, entry without its
markedForDeletion key)` for each `toUpdate` entry; the first group holds only deletes,
the second only creates, the third only updates. -/
theorem save_calls_in_order {σ : Type} (remote : Remote σ) (s : State) (srv : σ)
    (hok : ∀ e ∈ (saveAvailabilityChanges remote s srv).trace, e.isRejected = false) :
    calls (saveAvailabilityChanges remote s srv).trace =
      (toDelete s).map (fun r => Call.deleteAvailability (s.heap r).id) ++
      (toCreate s).map (fun r => Call.createAvailability (createData (s.heap r))) ++
      (toUpdate s).map
        (fun r => Call.updateAvailability (s.heap r).id (updateData (s.heap r))) ∧
    (∀ c ∈ (toDelete s).map (fun r => Call.deleteAvailability (s.heap r).id),
      c.isDelete = true) ∧
    (∀ c ∈ (toCreate s).map (fun r => Call.createAvailability (createData (s.heap r))),
      c.isCreate = true) ∧
    (∀ c ∈ (toUpdate s).map
        (fun r => Call.updateAvailability (s.heap r).id (updateData (s.heap r))),
      c.isUpdate = true) := by
  refine ⟨?_, ?_, ?_, ?_⟩
  · unfold saveAvailabilityChanges at hok ⊢
    cases hr : (commitLoops remote s srv).result with
    | error m =>
      exfalso
      obtain ⟨e, he, hrej⟩ := rejected_of_commitLoops_error remote s srv m hr
      simp only [hr] at hok
      rw [hok e he] at hrej
      exact Bool.noConfusion hrej
    | ok created =>
      obtain ⟨dels, upds, ht, ld, lc, lu⟩ := commitLoops_ok remote s srv created hr
      simp only [hr, ht, calls_append, calls_okTrace _ _ ld, calls_okTrace _ _ lc,
        calls_okTrace _ _ lu]
      have : calls (if s.hasOnChange = true then
          [Event.onChange
            (List.map (allocAll s.heap s.fresh created)
              (List.filter (fun r => isKept (s.heap r)) s.localAvailabilities ++
                List.range' s.fresh created.length))]
          else []) = [] := by
        split <;> rfl
      rw [this, List.append_nil]
      rfl
  · intro c hc
    obtain ⟨r, _, rfl⟩ := List.mem_map.1 hc
    rfl
  · intro c hc
    obtain ⟨r, _, rfl⟩ := List.mem_map.1 hc
    rfl
  · intro c hc
    obtain ⟨r, _, rfl⟩ := List.mem_map.1 hc
    rfl

/-- Witness of `save_calls_in_order`: the scenario of the specification. -/
theorem save_calls_in_order_witness :
    calls (saveAvailabilityChanges idServer addedAndRemoved 2).trace =
      [Call.deleteAvailability (.num 1),
        Call.createAvailability
          { dayOfWeek := .num 1, startTime := .str "09:00", endTime := .str "10:00",
            userId := .num 7 }] :=
  (save_calls_in_order idServer addedAndRemoved 2 (by decide)).1

/-! ## Reconciliation (C6, C7) -/

theorem lt_foldr_max (l : List Ref) (r : Ref) (h : r ∈ l) :
    r < l.foldr (fun r m => max (r + 1) m) 0 := by
  induction l with
  | nil => simp at h
  | cons a rest ih =>
    simp only [List.foldr_cons]
    rcases List.mem_cons.1 h with h1 | h1
    · subst h1
      exact lt_of_lt_of_le (Nat.lt_succ_self r) (le_max_left _ _)
    · exact lt_of_lt_of_le (ih h1) (le_max_right _ _)

theorem lt_fresh_of_mem_local (s : State) (r : Ref) (h : r ∈ s.localAvailabilities) :
    r < s.fresh :=
  lt_foldr_max _ r (List.mem_append_left _ h)

theorem lt_fresh_of_mem_props (s : State) (r : Ref) (h : r ∈ s.availabilities) :
    r < s.fresh :=
  lt_foldr_max _ r (List.mem_append_right _ h)

theorem allocAll_of_lt (xs : List Slot) :
    ∀ (h : Heap) (base r : Ref), r < base → allocAll h base xs r = h r := by
  induction xs with
  | nil => intro h base r _; rfl
  | cons a rest ih =>
    intro h base r hlt
    simp only [allocAll]
    rw [ih (h.store base a) (base + 1) r (Nat.lt_succ_of_lt hlt)]
    simp [Heap.store, Nat.ne_of_lt hlt]

theorem map_allocAll_range (xs : List Slot) :
    ∀ (h : Heap) (base : Ref),
      (List.range' base xs.length).map (allocAll h base xs) = xs := by
  induction xs with
  | nil => intro h base; rfl
  | cons a rest ih =>
    intro h base
    simp only [List.length_cons, List.range'_succ, List.map_cons, allocAll]
    rw [ih (h.store base a) (base + 1),
      allocAll_of_lt rest (h.store base a) (base + 1) base (Nat.lt_succ_self base)]
    simp [Heap.store]

theorem map_allocAll_local (s : State) (xs : List Slot) (l : List Ref)
    (hl : ∀ r ∈ l, r ∈ s.localAvailabilities) :
    l.map (allocAll s.heap s.fresh xs) = l.map s.heap := by
  apply List.map_congr_left
  intro r hr
  exact allocAll_of_lt xs s.heap s.fresh r (lt_fresh_of_mem_local s r (hl r hr))

theorem save_success_kept {σ : Type} (remote : Remote σ) (s : State) (srv : σ)
    (hok : ∀ e ∈ (saveAvailabilityChanges remote s srv).trace, e.isRejected = false) :
    (saveAvailabilityChanges remote s srv).state.buffer =
      (s.localAvailabilities.filter (fun r => isKept (s.heap r))).map s.heap ++
        createdData (saveAvailabilityChanges remote s srv).trace ∧
    (s.hasOnChange = true →
      onChanges (saveAvailabilityChanges remote s srv).trace =
        [(saveAvailabilityChanges remote s srv).state.buffer]) ∧
    (saveAvailabilityChanges remote s srv).state.hasUnsavedChanges = false := by
  unfold saveAvailabilityChanges at hok ⊢
  cases hr : (commitLoops remote s srv).result with
  | error m =>
    exfalso
    obtain ⟨e, he, hrej⟩ := rejected_of_commitLoops_error remote s srv m hr
    simp only [hr] at hok
    rw [hok e he] at hrej
    exact Bool.noConfusion hrej
  | ok created =>
    obtain ⟨dels, upds, ht, ld, lc, lu⟩ := commitLoops_ok remote s srv created hr
    have hD : ∀ c ∈ deleteCalls s, c.isCreate = false := by
      intro c hc
      obtain ⟨r, _, rfl⟩ := List.mem_map.1 hc
      rfl
    have hC : ∀ c ∈ createCalls s, c.isCreate = true := by
      intro c hc
      obtain ⟨r, _, rfl⟩ := List.mem_map.1 hc
      rfl
    have hU : ∀ c ∈ updateCalls s, c.isCreate = false := by
      intro c hc
      obtain ⟨r, _, rfl⟩ := List.mem_map.1 hc
      rfl
    have hbuf : (List.filter (fun r => isKept (s.heap r)) s.localAvailabilities ++
          List.range' s.fresh created.length).map (allocAll s.heap s.fresh created) =
        (s.localAvailabilities.filter (fun r => isKept (s.heap r))).map s.heap ++ created := by
      rw [List.map_append, map_allocAll_range,
        map_allocAll_local s created _ (fun r hr => (List.mem_filter.1 hr).1)]
    simp only [hr, ht, State.buffer, hbuf]
    refine ⟨?_, ?_, by trivial⟩
    · simp only [createdData_append, createdData_okTrace_other _ hD,
        createdData_okTrace_create _ hC _ lc, createdData_okTrace_other _ hU]
      split <;> simp [createdData]
    · intro hon
      simp only [hon, if_true, onChanges_append, onChanges_okTrace, hbuf]
      rfl

/-- C6: when every request of `saveAvailabilityChanges` resolves, the new buffer is
the buffer entries that are neither `isNew` nor `markedForDeletion`, in buffer order,
followed by the `response.data` of the create requests in the order they were issued;
`onChange` (when the owner passed a handler) is invoked exactly once, with that list;
`hasUnsavedChanges` becomes false.  On the baseline `[persistedSlot]` with one slot
added and the baseline slot removed, the requests are the delete and the create and
the final buffer is the one slot the server returned.  On the buffer `[persistedSlot
(marked), secondSlot, new slot]` the untouched `secondSlot` survives in place and the
slot the server returned follows it. -/
theorem save_success_reconciles :
    (∀ (σ : Type) (remote : Remote σ) (s : State) (srv : σ),
      (∀ e ∈ (saveAvailabilityChanges remote s srv).trace, e.isRejected = false) →
        (saveAvailabilityChanges remote s srv).state.buffer =
          (s.localAvailabilities.filter
            (fun r => !truthy (s.heap r).isNew && !truthy (s.heap r).markedForDeletion)).map
              s.heap ++
            createdData (saveAvailabilityChanges remote s srv).trace ∧
        (s.hasOnChange = true →
          onChanges (saveAvailabilityChanges remote s srv).trace =
            [(saveAvailabilityChanges remote s srv).state.buffer]) ∧
        (saveAvailabilityChanges remote s srv).state.hasUnsavedChanges = false) ∧
    (mountedOne.baseline = [persistedSlot] ∧
      (saveAvailabilityChanges idServer addedAndRemoved 2).trace =
        [Event.call (.deleteAvailability (.num 1)) (.ok default),
          Event.call
            (.createAvailability
              { dayOfWeek := .num 1, startTime := .str "09:00", endTime := .str "10:00",
                userId := .num 7 })
            (.ok
              { id := .num 2, dayOfWeek := .num 1, startTime := .str "09:00",
                endTime := .str "10:00", userId := .num 7 }),
          Event.onChange
            [{ id := .num 2, dayOfWeek := .num 1, startTime := .str "09:00",
               endTime := .str "10:00", userId := .num 7 }]] ∧
      (saveAvailabilityChanges idServer addedAndRemoved 2).state.buffer =
        [{ id := .num 2, dayOfWeek := .num 1, startTime := .str "09:00",
           endTime := .str "10:00", userId := .num 7 }]) ∧
    (keptAndAdded.buffer =
        [{ persistedSlot with markedForDeletion := .bool true }, secondSlot,
          { dayOfWeek := .num 1, startTime := .str "09:00", endTime := .str "10:00",
            userId := .num 7, isNew := .bool true }] ∧
      (saveAvailabilityChanges idServer keptAndAdded 3).trace =
        [Event.call (.deleteAvailability (.num 1)) (.ok default),
          Event.call
            (.createAvailability
              { dayOfWeek := .num 1, startTime := .str "09:00", endTime := .str "10:00",
                userId := .num 7 })
            (.ok
              { id := .num 3, dayOfWeek := .num 1, startTime := .str "09:00",
                endTime := .str "10:00", userId := .num 7 }),
          Event.call (.updateAvailability (.num 2) secondSlot) (.ok secondSlot),
          Event.onChange
            [secondSlot,
              { id := .num 3, dayOfWeek := .num 1, startTime := .str "09:00",
                endTime := .str "10:00", userId := .num 7 }]] ∧
      (saveAvailabilityChanges idServer keptAndAdded 3).state.buffer =
        [secondSlot,
          { id := .num 3, dayOfWeek := .num 1, startTime := .str "09:00",
            endTime := .str "10:00", userId := .num 7 }] ∧
      (saveAvailabilityChanges idServer keptAndAdded 3).state.hasUnsavedChanges = false) := by
  refine ⟨?_, by decide, by decide⟩
  intro σ remote s srv hok
  exact save_success_kept remote s srv hok

/-- Witness of `save_success_reconciles` at the scenario of the specification and at a
buffer with a surviving entry. -/
theorem save_success_reconciles_witness :
    (saveAvailabilityChanges idServer addedAndRemoved 2).state.hasUnsavedChanges = false ∧
    onChanges (saveAvailabilityChanges idServer addedAndRemoved 2).trace =
      [(saveAvailabilityChanges idServer addedAndRemoved 2).state.buffer] ∧
    (saveAvailabilityChanges idServer keptAndAdded 3).state.buffer =
      [secondSlot] ++ createdData (saveAvailabilityChanges idServer keptAndAdded 3).trace ∧
    onChanges (saveAvailabilityChanges idServer keptAndAdded 3).trace =
      [[secondSlot,
        { id := .num 3, dayOfWeek := .num 1, startTime := .str "09:00",
          endTime := .str "10:00", userId := .num 7 }]] :=
  ⟨(save_success_reconciles.1 Nat idServer addedAndRemoved 2 (by decide)).2.2,
    (save_success_reconciles.1 Nat idServer addedAndRemoved 2 (by decide)).2.1 (by decide),
    (save_success_reconciles.1 Nat idServer keptAndAdded 3 (by decide)).1,
    (save_success_reconciles.1 Nat idServer keptAndAdded 3 (by decide)).2.1 (by decide)⟩

/-- C7 (code defect): on the buffer `[persistedSlot, new slot]` the server answers the
update of the persisted slot with its own representation, and the new buffer holds at
that position the local entry, not the representation the server returned: the third
loop collects `response.data` in `updatedAvailabilities`, which line 114 never reads. -/
theorem save_drops_update_response :
    (saveAvailabilityChanges normalizing (addAvailability mountedOne) 2).trace =
      [Event.call
          (.createAvailability
            { dayOfWeek := .num 1, startTime := .str "09:00", endTime := .str "10:00",
              userId := .num 7 })
          (.ok
            { id := .num 2, dayOfWeek := .num 1, startTime := .str "09:00",
              endTime := .str "10:00", userId := .num 7 }),
        Event.call (.updateAvailability (.num 1) persistedSlot)
          (.ok { persistedSlot with startTime := .str "09:00:00", endTime := .str "10:00:00" }),
        Event.onChange
          [persistedSlot,
            { id := .num 2, dayOfWeek := .num 1, startTime := .str "09:00",
              endTime := .str "10:00", userId := .num 7 }]] ∧
    (saveAvailabilityChanges normalizing (addAvailability mountedOne) 2).state.buffer =
      [persistedSlot,
        { id := .num 2, dayOfWeek := .num 1, startTime := .str "09:00",
          endTime := .str "10:00", userId := .num 7 }] ∧
    (saveAvailabilityChanges normalizing (addAvailability mountedOne) 2).state.buffer.head? ≠
      some { persistedSlot with startTime := .str "09:00:00", endTime := .str "10:00:00" } := by
  decide

/-! ## Removing a row (C8) -/

theorem enumFrom_filter_ne_of_lt (xs : List Ref) :
    ∀ n k : Nat, k < n →
      ((xs.enumFrom n).filter (fun p => p.1 != k)).map Prod.snd = xs := by
  induction xs with
  | nil => intro n k _; rfl
  | cons a rest ih =>
    intro n k hk
    have hne : (n != k) = true := by simpa using Nat.ne_of_gt hk
    simp only [List.enumFrom_cons, List.filter_cons, hne, if_true, List.map_cons]
    rw [ih (n + 1) k (Nat.lt_succ_of_lt hk)]

theorem enumFrom_filter_ne (xs : List Ref) :
    ∀ n i : Nat,
      ((xs.enumFrom n).filter (fun p => p.1 != n + i)).map Prod.snd = xs.eraseIdx i := by
  induction xs with
  | nil => intro n i; rfl
  | cons a rest ih =>
    intro n i
    cases i with
    | zero =>
      simp only [List.enumFrom_cons, List.filter_cons, Nat.add_zero, bne_self_eq_false,
        List.eraseIdx_cons_zero]
      exact enumFrom_filter_ne_of_lt rest (n + 1) n (Nat.lt_succ_self n)
    | succ j =>
      have hne : (n != n + (j + 1)) = true := by simp
      simp only [List.enumFrom_cons, List.filter_cons, hne, if_true, List.map_cons,
        List.eraseIdx_cons_succ]
      have := ih (n + 1) j
      rw [show n + 1 + j = n + (j + 1) by omega] at this
      rw [this]

theorem filterIndexNe_eq_eraseIdx (xs : List Ref) (index : Nat) :
    filterIndexNe xs index = xs.eraseIdx index := by
  have := enumFrom_filter_ne xs 0 index
  simpa [filterIndexNe, List.enum] using this

theorem enumFrom_map_eq_of_lt (xs : List Ref) (b : Ref) :
    ∀ n k : Nat, k < n →
      (xs.enumFrom n).map (fun p => if p.1 = k then b else p.2) = xs := by
  induction xs with
  | nil => intro n k _; rfl
  | cons a rest ih =>
    intro n k hk
    simp only [List.enumFrom_cons, List.map_cons, Nat.ne_of_gt hk, if_false]
    rw [ih (n + 1) k (Nat.lt_succ_of_lt hk)]

theorem enumFrom_map_eq (xs : List Ref) (b : Ref) :
    ∀ n i : Nat,
      (xs.enumFrom n).map (fun p => if p.1 = n + i then b else p.2) = xs.set i b := by
  induction xs with
  | nil => intro n i; rfl
  | cons a rest ih =>
    intro n i
    cases i with
    | zero =>
      simp only [List.enumFrom_cons, List.map_cons, Nat.add_zero, if_true, List.set_cons_zero]
      rw [enumFrom_map_eq_of_lt rest b (n + 1) n (Nat.lt_succ_self n)]
    | succ j =>
      have hne : ¬ n = n + (j + 1) := by omega
      simp only [List.enumFrom_cons, List.map_cons, hne, if_false, List.set_cons_succ]
      have := ih (n + 1) j
      rw [show n + 1 + j = n + (j + 1) by omega] at this
      rw [this]

theorem mapIndexEq_eq_set (xs : List Ref) (index : Nat) (b : Ref) :
    mapIndexEq xs index b = xs.set index b := by
  have := enumFrom_map_eq xs b 0 index
  simpa [mapIndexEq, List.enum] using this

theorem set_getElem?_self (xs : List Ref) (index : Nat) (r : Ref)
    (h : xs[index]? = some r) : xs.set index r = xs := by
  induction xs generalizing index with
  | nil => rfl
  | cons a rest ih =>
    cases index with
    | zero =>
      simp only [List.getElem?_cons_zero, Option.some.injEq] at h
      simp [h]
    | succ j =>
      simp only [List.getElem?_cons_succ] at h
      simp [ih j h]

theorem map_store_set (xs : List Ref) (h : Heap) (index : Nat) (r : Ref) (a : Slot)
    (hr : xs[index]? = some r) (hnd : xs.Nodup) :
    xs.map (h.store r a) = (xs.map h).set index a := by
  induction xs generalizing index with
  | nil => rfl
  | cons x rest ih =>
    have hx : x ∉ rest := (List.nodup_cons.1 hnd).1
    have hrest : rest.Nodup := (List.nodup_cons.1 hnd).2
    cases index with
    | zero =>
      simp only [List.getElem?_cons_zero, Option.some.injEq] at hr
      subst hr
      simp only [List.map_cons, List.set_cons_zero]
      congr 1
      · simp [Heap.store]
      · apply List.map_congr_left
        intro y hy
        have : y ≠ x := fun e => hx (e ▸ hy)
        simp [Heap.store, this]
    | succ j =>
      simp only [List.getElem?_cons_succ] at hr
      have hmem : r ∈ rest := List.getElem?_mem hr
      have : x ≠ r := fun e => hx (e ▸ hmem)
      simp only [List.map_cons, List.set_cons_succ]
      rw [ih j hr hrest]
      simp [Heap.store, this]

theorem map_heap_eraseIdx (h : Heap) (xs : List Ref) (index : Nat) :
    (xs.eraseIdx index).map h = (xs.map h).eraseIdx index := by
  induction xs generalizing index with
  | nil => rfl
  | cons a rest ih =>
    cases index with
    | zero => rfl
    | succ j => simp only [List.eraseIdx_cons_succ, List.map_cons, ih j]

/-- C8, as stated, fails: the only entry of `untaggedNoId` is in bounds and is not
Pending-Create, and `removeAvailability` deletes it from the buffer instead of
marking it. -/
theorem remove_without_id_erases :
    untaggedNoId.buffer.length = 1 ∧
    truthy (untaggedNoId.heap 0).isNew = false ∧
    (removeAvailability untaggedNoId 0).state.buffer = [] := by
  decide

/-- C8, amended: for an index in bounds, if the entry has a (truthy) `id` and is not
`isNew`, `removeAvailability` keeps the buffer's objects and their order, sets
`markedForDeletion = true` on the object at that index and changes no other field and
no other object (so, the entries being distinct objects, the buffer differs at that
index only); if the entry is `isNew` or has no `id`, the buffer is the old one without
the entry at that index, all others unchanged and in order; in both cases
`hasUnsavedChanges` becomes true and nothing is thrown.  For an index out of bounds
the handler throws and the buffer is unchanged. -/
theorem removeAvailability_cases (s : State) (index : Nat) :
    (∀ r, s.localAvailabilities[index]? = some r →
      truthy (s.heap r).id = true → truthy (s.heap r).isNew = false →
        (removeAvailability s index).state.localAvailabilities = s.localAvailabilities ∧
        (removeAvailability s index).state.heap r =
          { s.heap r with markedForDeletion := .bool true } ∧
        (∀ x, x ≠ r → (removeAvailability s index).state.heap x = s.heap x) ∧
        (s.localAvailabilities.Nodup →
          (removeAvailability s index).state.buffer =
            s.buffer.set index { s.heap r with markedForDeletion := .bool true }) ∧
        (removeAvailability s index).state.hasUnsavedChanges = true ∧
        (removeAvailability s index).thrown = none) ∧
    (∀ r, s.localAvailabilities[index]? = some r →
      (truthy (s.heap r).isNew = true ∨ truthy (s.heap r).id = false) →
        (removeAvailability s index).state.localAvailabilities =
          s.localAvailabilities.eraseIdx index ∧
        (removeAvailability s index).state.heap = s.heap ∧
        (removeAvailability s index).state.buffer = s.buffer.eraseIdx index ∧
        (removeAvailability s index).state.hasUnsavedChanges = true ∧
        (removeAvailability s index).thrown = none) ∧
    (s.localAvailabilities.length ≤ index →
      (removeAvailability s index).thrown.isSome = true ∧
      (removeAvailability s index).state.localAvailabilities = s.localAvailabilities ∧
      (removeAvailability s index).state.heap = s.heap ∧
      (removeAvailability s index).state.hasUnsavedChanges = s.hasUnsavedChanges) := by
  refine ⟨?_, ?_, ?_⟩
  · intro r hr hid hnew
    have hset := set_getElem?_self s.localAvailabilities index r hr
    simp only [removeAvailability, hr, hid, hnew, Bool.not_false, Bool.and_self, if_true,
      hset, State.buffer]
    refine ⟨by trivial, by simp [Heap.store], ?_, ?_, by trivial, by trivial⟩
    · intro x hx
      simp [Heap.store, hx]
    · intro hnd
      exact map_store_set _ _ _ _ _ hr hnd
  · intro r hr hcase
    have hcond : (truthy (s.heap r).id && !truthy (s.heap r).isNew) = false := by
      rcases hcase with h1 | h1 <;> simp [h1]
    simp only [removeAvailability, hr, hcond, State.buffer, filterIndexNe_eq_eraseIdx]
    exact ⟨by trivial, by trivial, map_heap_eraseIdx _ _ _, by trivial, by trivial⟩
  · intro hlen
    have hnone : s.localAvailabilities[index]? = none := List.getElem?_eq_none hlen
    simp [removeAvailability, hnone]

/-! ## Adding a skill (C9) -/

theorem addSkill_noop (s : State)
    (h : jsTrim s.newSkill = "" ∨ jsTrim s.newSkill ∈ s.localSupportAreas) :
    addSkill s = s := by
  unfold addSkill
  rcases h with h | h
  · simp [h]
  · simp [h]

theorem addSkill_append (s : State)
    (h1 : jsTrim s.newSkill ≠ "") (h2 : jsTrim s.newSkill ∉ s.localSupportAreas) :
    addSkill s =
      { s with
        localSupportAreas := s.localSupportAreas ++ [jsTrim s.newSkill]
        newSkill := ""
        hasUnsavedChanges := true } := by
  unfold addSkill
  simp [h1, h2]

/-- C9: on a skill set with distinct elements, `addSkill` with the input `text` leaves
the state as it is when the trimmed text is empty or already a member, and otherwise
appends the trimmed text at the end and sets `hasUnsavedChanges`; the set stays
duplicate-free; adding the same text a second time gives the same set as adding it
once, and a non-empty trimmed text then occurs in it exactly once. -/
theorem addSkill_dedup (s : State) (text : String) (hd : s.localSupportAreas.Nodup) :
    ((jsTrim text = "" ∨ jsTrim text ∈ s.localSupportAreas) →
      addSkill (setNewSkill s text) = setNewSkill s text) ∧
    (jsTrim text ≠ "" → jsTrim text ∉ s.localSupportAreas →
      (addSkill (setNewSkill s text)).localSupportAreas =
        s.localSupportAreas ++ [jsTrim text] ∧
      (addSkill (setNewSkill s text)).hasUnsavedChanges = true) ∧
    (addSkill (setNewSkill s text)).localSupportAreas.Nodup ∧
    (addSkill (setNewSkill (addSkill (setNewSkill s text)) text)).localSupportAreas =
      (addSkill (setNewSkill s text)).localSupportAreas ∧
    (jsTrim text ≠ "" →
      (addSkill (setNewSkill (addSkill (setNewSkill s text)) text)).localSupportAreas.count
        (jsTrim text) = 1) := by
  have hnoop : (jsTrim text = "" ∨ jsTrim text ∈ s.localSupportAreas) →
      addSkill (setNewSkill s text) = setNewSkill s text :=
    fun h => addSkill_noop (setNewSkill s text) h
  have happ : jsTrim text ≠ "" → jsTrim text ∉ s.localSupportAreas →
      (addSkill (setNewSkill s text)).localSupportAreas =
        s.localSupportAreas ++ [jsTrim text] ∧
      (addSkill (setNewSkill s text)).hasUnsavedChanges = true := by
    intro h1 h2
    rw [addSkill_append (setNewSkill s text) h1 h2]
    exact ⟨rfl, rfl⟩
  have hmem : jsTrim text ≠ "" →
      jsTrim text ∈ (addSkill (setNewSkill s text)).localSupportAreas := by
    intro h1
    by_cases h2 : jsTrim text ∈ s.localSupportAreas
    · rw [hnoop (Or.inr h2)]; exact h2
    · rw [(happ h1 h2).1]; simp
  have hnodup : (addSkill (setNewSkill s text)).localSupportAreas.Nodup := by
    by_cases h1 : jsTrim text = ""
    · rw [hnoop (Or.inl h1)]; exact hd
    · by_cases h2 : jsTrim text ∈ s.localSupportAreas
      · rw [hnoop (Or.inr h2)]; exact hd
      · rw [(happ h1 h2).1]
        exact List.Nodup.append hd (List.nodup_singleton _) (by simpa using h2)
  have htwice : (addSkill (setNewSkill (addSkill (setNewSkill s text)) text)).localSupportAreas =
      (addSkill (setNewSkill s text)).localSupportAreas := by
    by_cases h1 : jsTrim text = ""
    · rw [addSkill_noop (setNewSkill (addSkill (setNewSkill s text)) text) (Or.inl h1)]
      rfl
    · rw [addSkill_noop (setNewSkill (addSkill (setNewSkill s text)) text)
        (Or.inr (hmem h1))]
      rfl
  refine ⟨hnoop, happ, hnodup, htwice, ?_⟩
  intro h1
  rw [htwice]
  exact List.count_eq_one_of_mem hnodup (hmem h1)

/-- Witness of `addSkill_dedup`: adding " SQL " twice to the skills `["React"]`. -/
theorem addSkill_dedup_witness :
    (addSkill (setNewSkill (addSkill (setNewSkill mountedOne " SQL ")) " SQL ")).localSupportAreas
      = ["React", "SQL"] ∧
    (addSkill (setNewSkill (addSkill (setNewSkill mountedOne " SQL ")) " SQL ")).localSupportAreas.count
      (jsTrim " SQL ") = 1 :=
  ⟨by decide, (addSkill_dedup mountedOne " SQL " (by decide)).2.2.2.2 (by decide)⟩

/-! ## The tag invariant (C10) -/

theorem impossible_setField (a : Slot) (field : Field) (v : JsVal)
    (hf : field = Field.dayOfWeek ∨ field = Field.startTime ∨ field = Field.endTime) :
    impossible (a.setField field v) = impossible a := by
  rcases hf with h | h | h <;> subst h <;> rfl

/-- C10: from a buffer in which no entry has both `isNew` and `markedForDeletion` set,
`addAvailability`, `removeAvailability(index)` and `updateAvailability(index, field,
value)` with `field` among `dayOfWeek`, `startTime`, `endTime` lead to such a buffer;
and `removeAvailability` changes no object whose `isNew` is set, so it never marks one
for deletion. -/
theorem tags_invariant (parseInt : JsVal → JsVal) (s : State) (h : NoImpossible s) :
    NoImpossible (addAvailability s) ∧
    (∀ index, NoImpossible (removeAvailability s index).state) ∧
    (∀ index field value,
      field = Field.dayOfWeek ∨ field = Field.startTime ∨ field = Field.endTime →
        NoImpossible (updateAvailability parseInt s index field value)) ∧
    (∀ index r, truthy (s.heap r).isNew = true →
      (removeAvailability s index).state.heap r = s.heap r) := by
  refine ⟨?_, ?_, ?_, ?_⟩
  · intro r hr
    simp only [addAvailability, List.mem_append, List.mem_singleton] at hr ⊢
    by_cases hfr : r = s.fresh
    · simp [Heap.store, hfr, impossible, truthy]
    · rcases hr with h1 | h1
      · simp only [Heap.store, hfr, if_false]
        exact h r h1
      · exact absurd h1 hfr
  · intro index r hr
    unfold removeAvailability at hr ⊢
    cases hget : s.localAvailabilities[index]? with
    | none =>
      simp only [hget] at hr ⊢
      exact h r hr
    | some r0 =>
      simp only [hget] at hr ⊢
      by_cases hcond : (truthy (s.heap r0).id && !truthy (s.heap r0).isNew) = true
      · simp only [hcond, if_true] at hr ⊢
        rw [set_getElem?_self _ _ _ hget] at hr
        by_cases hrr : r = r0
        · subst hrr
          simp only [Bool.and_eq_true, Bool.not_eq_true'] at hcond
          simp [Heap.store, impossible, hcond.2]
        · simp only [Heap.store, hrr, if_false]
          exact h r hr
      · simp only [hcond] at hr ⊢
        rw [filterIndexNe_eq_eraseIdx] at hr
        exact h r (List.mem_of_mem_eraseIdx hr)
  · intro index field value hf r hr
    unfold updateAvailability at hr ⊢
    cases hget : s.localAvailabilities[index]? with
    | none =>
      simp only [hget] at hr ⊢
      rw [mapIndexEq_eq_set, List.set_eq_of_length_le
        (by simpa using (List.getElem?_eq_none_iff.1 hget))] at hr
      exact h r hr
    | some r0 =>
      simp only [hget] at hr ⊢
      rw [mapIndexEq_eq_set] at hr
      by_cases hfr : r = s.fresh
      · simp only [Heap.store, hfr, if_true]
        rw [impossible_setField _ _ _ hf]
        exact h r0 (List.getElem?_mem hget)
      · simp only [Heap.store, hfr, if_false]
        rcases List.mem_or_eq_of_mem_set hr with h1 | h1
        · exact h r h1
        · exact absurd h1 hfr
  · intro index r hnew
    unfold removeAvailability
    cases hget : s.localAvailabilities[index]? with
    | none => rfl
    | some r0 =>
      simp only
      by_cases hcond : (truthy (s.heap r0).id && !truthy (s.heap r0).isNew) = true
      · simp only [hcond, if_true]
        have hrr : r ≠ r0 := by
          intro e
          subst e
          simp only [Bool.and_eq_true, Bool.not_eq_true'] at hcond
          rw [hnew] at hcond
          exact Bool.noConfusion hcond.2
        simp [Heap.store, hrr]
      · simp only [hcond]
        rfl

/-- Witness of `tags_invariant`: the buffer after one added slot. -/
theorem tags_invariant_witness :
    NoImpossible (addAvailability (addAvailability mountedOne)) ∧
    NoImpossible (removeAvailability (addAvailability mountedOne) 1).state :=
  ⟨(tags_invariant (fun v => v) (addAvailability mountedOne)
      (by unfold NoImpossible; decide)).1,
    (tags_invariant (fun v => v) (addAvailability mountedOne)
      (by unfold NoImpossible; decide)).2.1 1⟩

/-! ## The dirty flag (C11) -/

theorem perform_supportAreas (parseInt : JsVal → JsVal) (s : State) (a : Action) :
    (perform parseInt s a).supportAreas = s.supportAreas := by
  cases a with
  | addAvailability => rfl
  | removeAvailability index =>
    simp only [perform, removeAvailability]
    split
    · rfl
    · split <;> rfl
  | updateAvailability index field value =>
    simp only [perform, updateAvailability]
    split <;> rfl
  | addSkill text =>
    simp only [perform, addSkill]
    split <;> rfl
  | removeSkill skillToRemove => rfl
  | discardChanges => rfl

theorem perform_flag_or_untouched (parseInt : JsVal → JsVal) (s : State) (a : Action)
    (ha : a.isDiscard = false) :
    (perform parseInt s a).hasUnsavedChanges = true ∨
    ((perform parseInt s a).hasUnsavedChanges = s.hasUnsavedChanges ∧
      (perform parseInt s a).localAvailabilities = s.localAvailabilities ∧
      (perform parseInt s a).heap = s.heap ∧
      (perform parseInt s a).localSupportAreas = s.localSupportAreas) := by
  cases a with
  | addAvailability => exact Or.inl rfl
  | removeAvailability index =>
    simp only [perform, removeAvailability]
    split
    · exact Or.inr ⟨rfl, rfl, rfl, rfl⟩
    · split <;> exact Or.inl rfl
  | updateAvailability index field value =>
    simp only [perform, updateAvailability]
    split <;> exact Or.inl rfl
  | addSkill text =>
    simp only [perform, addSkill]
    split
    · exact Or.inl rfl
    · exact Or.inr ⟨rfl, rfl, rfl, rfl⟩
  | removeSkill skillToRemove => exact Or.inl rfl
  | discardChanges => exact Bool.noConfusion ha

theorem performAll_flag_or_untouched (parseInt : JsVal → JsVal) (edits : List Action) :
    ∀ s : State, (∀ a ∈ edits, a.isDiscard = false) →
      ((performAll parseInt s edits).hasUnsavedChanges = true ∨
        ((performAll parseInt s edits).hasUnsavedChanges = s.hasUnsavedChanges ∧
          (performAll parseInt s edits).localAvailabilities = s.localAvailabilities ∧
          (performAll parseInt s edits).heap = s.heap ∧
          (performAll parseInt s edits).localSupportAreas = s.localSupportAreas)) ∧
      (performAll parseInt s edits).supportAreas = s.supportAreas := by
  induction edits with
  | nil => intro s _; exact ⟨Or.inr ⟨rfl, rfl, rfl, rfl⟩, rfl⟩
  | cons a rest ih =>
    intro s h
    have ha := h a (List.mem_cons_self _ _)
    obtain ⟨h1, h2⟩ := ih (perform parseInt s a) (fun b hb => h b (List.mem_cons_of_mem _ hb))
    simp only [performAll]
    refine ⟨?_, by rw [h2, perform_supportAreas]⟩
    rcases h1 with h1 | ⟨e1, e2, e3, e4⟩
    · exact Or.inl h1
    · rcases perform_flag_or_untouched parseInt s a ha with h3 | ⟨f1, f2, f3, f4⟩
      · exact Or.inl (e1.trans h3)
      · exact Or.inr ⟨e1.trans f1, e2.trans f2, e3.trans f3, e4.trans f4⟩

theorem mount_buffer (availabilities : List Slot) (supportAreas : List String)
    (userId : JsVal) (b1 b2 : Bool) :
    (mount availabilities supportAreas userId b1 b2).buffer = availabilities := by
  simp only [State.buffer, mount]
  apply List.ext_getElem
  · simp
  · intro n h1 h2
    simp only [List.length_map, List.length_range] at h1
    simp [List.getD, h1]

/-- Without `discardChanges` the flag is sound: from a mounted component whose
baseline entries carry no tag, after any sequence of the other five edits, a tagged
buffer entry or a skill set different from its baseline implies `hasUnsavedChanges`. -/
theorem flag_sound_without_discard (parseInt : JsVal → JsVal) (availabilities : List Slot)
    (supportAreas : List String) (userId : JsVal) (b1 b2 : Bool) (edits : List Action)
    (hbase : ∀ a ∈ availabilities, carriesTag a = false)
    (hnd : ∀ a ∈ edits, a.isDiscard = false)
    (hdirty :
      (∃ a ∈ (performAll parseInt (mount availabilities supportAreas userId b1 b2)
        edits).buffer, carriesTag a = true) ∨
      (performAll parseInt (mount availabilities supportAreas userId b1 b2)
        edits).localSupportAreas ≠
      (performAll parseInt (mount availabilities supportAreas userId b1 b2)
        edits).supportAreas) :
    (performAll parseInt (mount availabilities supportAreas userId b1 b2)
      edits).hasUnsavedChanges = true := by
  obtain ⟨h1, h2⟩ := performAll_flag_or_untouched parseInt edits
    (mount availabilities supportAreas userId b1 b2) hnd
  rcases h1 with h1 | ⟨_, e2, e3, e4⟩
  · exact h1
  · exfalso
    rcases hdirty with ⟨a, ha, hta⟩ | hsk
    · have hb : (performAll parseInt (mount availabilities supportAreas userId b1 b2)
          edits).buffer = availabilities := by
        have hm : (performAll parseInt (mount availabilities supportAreas userId b1 b2)
            edits).buffer = (mount availabilities supportAreas userId b1 b2).buffer := by
          simp only [State.buffer, e2, e3]
        exact hm.trans (mount_buffer availabilities supportAreas userId b1 b2)
      rw [hb] at ha
      rw [hbase a ha] at hta
      exact Bool.noConfusion hta
    · exact hsk (by rw [e4, h2]; rfl)

/-- C11 (code defect): from the mounted component (baseline `[persistedSlot]`, skills
`["React"]`, no entry tagged, flag false) two reachable states break the claim.  After
removing row 0 and discarding, the buffer entry carries `markedForDeletion` and
`hasUnsavedChanges` is false (the in-place write of line 61, as in C2).  After adding
the skill "SQL" and discarding, the skill set differs from its baseline and
`hasUnsavedChanges` is false (`discardChanges` clears the flag and leaves the skills). -/
theorem discard_clears_flag_of_dirty_state :
    (mountedOne.buffer = [persistedSlot] ∧ carriesTag persistedSlot = false ∧
      mountedOne.localSupportAreas = mountedOne.supportAreas ∧
      mountedOne.hasUnsavedChanges = false) ∧
    ((performAll (fun v => v) mountedOne [.removeAvailability 0, .discardChanges]).buffer =
        [{ persistedSlot with markedForDeletion := .bool true }] ∧
      carriesTag { persistedSlot with markedForDeletion := .bool true } = true ∧
      (performAll (fun v => v) mountedOne
        [.removeAvailability 0, .discardChanges]).hasUnsavedChanges = false) ∧
    ((performAll (fun v => v) mountedOne [.addSkill "SQL", .discardChanges]).localSupportAreas =
        ["React", "SQL"] ∧
      (performAll (fun v => v) mountedOne [.addSkill "SQL", .discardChanges]).supportAreas =
        ["React"] ∧
      (performAll (fun v => v) mountedOne
        [.addSkill "SQL", .discardChanges]).hasUnsavedChanges = false) := by
  decide

/-! ## Row handlers (C12) -/

/-- While no buffer entry is marked for deletion the displayed rows are the buffer, so
row `i` shows buffer entry `i`. -/
theorem displayAvailabilities_of_unmarked (s : State)
    (h : ∀ r ∈ s.localAvailabilities, truthy (s.heap r).markedForDeletion = false) :
    displayAvailabilities s = s.localAvailabilities := by
  unfold displayAvailabilities
  apply List.filter_eq_self.2
  intro r hr
  simp [h r hr]

/-- C12 (code defect): in `firstRowRemoved` the buffer is `[persistedSlot (marked),
secondSlot]` and the only displayed row, row 0, shows `secondSlot`.  Its Remove Slot
button calls `removeAvailability(0)`, which acts on the hidden first entry: the
buffer and the displayed rows are as before and `secondSlot` is not marked.  Its
start-time input calls `updateAvailability(0, 'startTime', ...)`, which rewrites the
hidden first entry and leaves the displayed `secondSlot` as it was. -/
theorem row_handlers_miss_displayed_entry :
    firstRowRemoved.buffer =
      [{ persistedSlot with markedForDeletion := .bool true }, secondSlot] ∧
    (displayAvailabilities firstRowRemoved).map firstRowRemoved.heap = [secondSlot] ∧
    (rowRemove firstRowRemoved 0).state.buffer =
      [{ persistedSlot with markedForDeletion := .bool true }, secondSlot] ∧
    (displayAvailabilities (rowRemove firstRowRemoved 0).state).map
      (rowRemove firstRowRemoved 0).state.heap = [secondSlot] ∧
    (rowUpdate (fun v => v) firstRowRemoved 0 .startTime (.str "11:00")).buffer =
      [{ persistedSlot with markedForDeletion := .bool true, startTime := .str "11:00" },
        secondSlot] ∧
    (displayAvailabilities (rowUpdate (fun v => v) firstRowRemoved 0 .startTime
        (.str "11:00"))).map
      (rowUpdate (fun v => v) firstRowRemoved 0 .startTime (.str "11:00")).heap =
      [secondSlot] := by
  decide

end AvailabilityEditor
